import Mathlib

/-!
Shallow embedding of the `motsu` image-processing core
(`src/pixel.rs`, `src/image.rs`).

Bytes are modelled as `Nat`; Rust `Vec<u8>` as `List Nat`.  An
indexing operation that would panic in Rust (out-of-bounds `vec[i]`
or slice `&data[a..b]`) is modelled by `Option`: `none` is the panic.
The `f32` arithmetic of `rgb_to_gray` is modelled exactly, as scaled
integer arithmetic with round-to-nearest-even at the 24-bit significand
of each intermediate operation.
-/

namespace Motsu

/-! ### Pixel types (`src/pixel.rs`) -/

structure Gray where
  gray : Nat
deriving DecidableEq

structure RGB where
  red : Nat
  green : Nat
  blue : Nat
deriving DecidableEq

structure GrayA where
  gray : Nat
  alpha : Nat
deriving DecidableEq

structure RGBA where
  red : Nat
  green : Nat
  blue : Nat
  alpha : Nat
deriving DecidableEq

/-! ### Exact `f32` model for `rgb_to_gray`

Every `f32` value arising in `rgb_to_gray` is a nonnegative dyadic
rational that is an integer multiple of `2^-55` (the constants have
binade exponents ≥ -4 with 24-bit significands, and every product with
a `u8` keeps denominator at most `2^55`).  A float value `x` is
therefore represented exactly as the natural number `x * 2^55`, and
each IEEE operation is the exact integer computation followed by
rounding to the 24-bit significand, round to nearest, ties to even. -/

/-- Largest `e < 128` with `2^e ≤ n` (so `⌊log₂ n⌋` for `0 < n < 2^128`). -/
def floorLog2 (n : Nat) : Nat :=
  ((List.range 128).filter (fun e => 2 ^ e ≤ n)).foldl max 0

/-- Round `n / d` to the nearest integer, ties to even (`d > 0`). -/
def roundHalfEvenDiv (n d : Nat) : Nat :=
  let q := n / d
  let r := n % d
  if 2 * r < d then q
  else if 2 * r > d then q + 1
  else if q % 2 = 0 then q else q + 1

/-- Round the value `n * 2^-55` to the nearest `f32` (24-bit
significand, round to nearest, ties to even); the result is again
scaled by `2^55`.  A value with at most 24 bits is exact. -/
def f32round (n : Nat) : Nat :=
  let k := floorLog2 n
  if k ≤ 23 then n
  else roundHalfEvenDiv n (2 ^ (k - 23)) * 2 ^ (k - 23)

/-- The `f32` value of the Rust literal `0.3`, which is
`10066330 * 2^-25`, scaled by `2^55`. -/
def lit03 : Nat := 10066330 * 2 ^ 30

/-- The `f32` value of the Rust literal `0.59`, which is
`9898557 * 2^-24`, scaled by `2^55`. -/
def lit059 : Nat := 9898557 * 2 ^ 31

/-- The `f32` value of the Rust literal `0.11`, which is
`14763950 * 2^-27`, scaled by `2^55`. -/
def lit011 : Nat := 14763950 * 2 ^ 28

/-- `fn rgb_to_gray(r: u8, g: u8, b: u8) -> u8` of `src/pixel.rs`:
`(0.3*r + 0.59*g + 0.11*b) as u8` in `f32` arithmetic, left to right,
each operation rounded once; the final `as u8` truncates toward zero
and saturates at 255.  All intermediate values are scaled by `2^55`. -/
def rgb_to_gray (r g b : Nat) : Nat :=
  let rf := f32round (lit03 * r)
  let gf := f32round (lit059 * g)
  let bf := f32round (lit011 * b)
  let s := f32round (f32round (rf + gf) + bf)
  if 255 * 2 ^ 55 ≤ s then 255 else s / 2 ^ 55

/-! ### The `Pixel` trait -/

/-- The data of `trait Pixel`: channel count, `into_vec`, `from_slice`.
`fromSlice` returns `none` when the Rust code would index out of
bounds (a panic). -/
structure PixelT (P : Type) where
  numChannels : Nat
  intoVec : P → List Nat
  fromSlice : List Nat → Nat → Option P

/-- `impl Pixel for Gray` (1 channel). -/
def GrayT : PixelT Gray where
  numChannels := 1
  intoVec p := [p.gray]
  fromSlice v i := (v.get? i).map Gray.mk

/-- `impl Pixel for RGB` (3 channels). -/
def RGBT : PixelT RGB where
  numChannels := 3
  intoVec p := [p.red, p.green, p.blue]
  fromSlice v i := do
    let r ← v.get? i
    let g ← v.get? (i + 1)
    let b ← v.get? (i + 2)
    pure ⟨r, g, b⟩

/-- `impl Pixel for RGBA` (4 channels). -/
def RGBAT : PixelT RGBA where
  numChannels := 4
  intoVec p := [p.red, p.green, p.blue, p.alpha]
  fromSlice v i := do
    let r ← v.get? i
    let g ← v.get? (i + 1)
    let b ← v.get? (i + 2)
    let a ← v.get? (i + 3)
    pure ⟨r, g, b, a⟩

/-- `impl Pixel for GrayA` (2 channels).  Note: the source reads the
alpha channel from `vec[idx + 2]`, not `vec[idx + 1]`. -/
def GrayAT : PixelT GrayA where
  numChannels := 2
  intoVec p := [p.gray, p.alpha]
  fromSlice v i := do
    let g ← v.get? i
    let a ← v.get? (i + 2)
    pure ⟨g, a⟩

/-! ### The `PixelConvert` matrix (16 entries) -/

def RGB.toRGB (p : RGB) : RGB := p

def RGB.toGray (p : RGB) : Gray := ⟨rgb_to_gray p.red p.green p.blue⟩

def RGB.toRGBA (p : RGB) : RGBA := ⟨p.red, p.green, p.blue, 0xff⟩

def RGB.toGrayA (p : RGB) : GrayA := ⟨rgb_to_gray p.red p.green p.blue, 0xff⟩

def Gray.toRGB (p : Gray) : RGB := ⟨p.gray, p.gray, p.gray⟩

def Gray.toGray (p : Gray) : Gray := p

def Gray.toRGBA (p : Gray) : RGBA := ⟨p.gray, p.gray, p.gray, 0xff⟩

def Gray.toGrayA (p : Gray) : GrayA := ⟨p.gray, 0xff⟩

def RGBA.toRGB (p : RGBA) : RGB := ⟨p.red, p.green, p.blue⟩

def RGBA.toGray (p : RGBA) : Gray := ⟨rgb_to_gray p.red p.green p.blue⟩

def RGBA.toRGBA (p : RGBA) : RGBA := p

def RGBA.toGrayA (p : RGBA) : GrayA := ⟨rgb_to_gray p.red p.green p.blue, p.alpha⟩

def GrayA.toRGB (p : GrayA) : RGB := ⟨p.gray, p.gray, p.gray⟩

def GrayA.toGray (p : GrayA) : Gray := ⟨p.gray⟩

def GrayA.toRGBA (p : GrayA) : RGBA := ⟨p.gray, p.gray, p.gray, p.alpha⟩

def GrayA.toGrayA (p : GrayA) : GrayA := p

/-! ### The image buffer (`src/image.rs`) -/

/-- `struct Image<P>`: the pixel type is erased; every operation takes
the channel count (or the full `PixelT`) as an explicit argument. -/
structure Image where
  height : Nat
  width : Nat
  data : List Nat
deriving DecidableEq

/-- Rust slice `&l[a..b]`: `none` models the panic when `a > b` or
`b > l.length`. -/
def slice (l : List Nat) (a b : Nat) : Option (List Nat) :=
  if a ≤ b ∧ b ≤ l.length then some ((l.drop a).take (b - a)) else none

/-- `Vec::resize_with(n, || 0)`: truncate when too long, pad with
zeros when too short. -/
def resize (l : List Nat) (n : Nat) : List Nat :=
  l.take n ++ List.replicate (n - l.length) 0

/-- `Image::shrink_data`: force the storage length to
`height * width * NUM_CHANNELS`. -/
def Image.shrink_data (c : Nat) (img : Image) : Image :=
  ⟨img.height, img.width, resize img.data (img.height * (img.width * c))⟩

/-- `Image::new(height, width, data)`: make the image and normalize its
storage length. -/
def Image.new (c : Nat) (height width : Nat) (data : List Nat) : Image :=
  Image.shrink_data c ⟨height, width, data⟩

/-- The storage-length invariant
`len(pixels) == height * width * channels`. -/
def Image.wf (c : Nat) (img : Image) : Prop :=
  img.data.length = img.height * (img.width * c)

instance (c : Nat) (img : Image) : Decidable (Image.wf c img) := by
  unfold Image.wf; infer_instance

/-- `Image::row_size`. -/
def Image.rowSize (c : Nat) (img : Image) : Nat := img.width * c

/-- `Image::get_pixel(x, y)`. -/
def Image.get_pixel {P : Type} (T : PixelT P) (img : Image) (x y : Nat) :
    Option P :=
  T.fromSlice img.data (y * img.rowSize T.numChannels + x * T.numChannels)

/-- `Image::to_pixels`: the row-major grid of decoded pixels; `none`
models a panic in any `from_slice` call. -/
def Image.to_pixels {P : Type} (T : PixelT P) (img : Image) :
    Option (List (List P)) :=
  (List.range img.height).mapM fun y =>
    (List.range img.width).mapM fun x => img.get_pixel T x y

/-- `Image::from_pixels`. -/
def Image.from_pixels {P : Type} (T : PixelT P) (pixels : List (List P)) :
    Image :=
  match pixels with
  | [] => ⟨0, 0, []⟩
  | r0 :: _ =>
    if r0.isEmpty then ⟨0, 0, []⟩
    else
      ⟨pixels.length, r0.length,
        (pixels.map fun row => (row.map T.intoVec).flatten).flatten⟩

/-- `Image::convert::<Q>`: decode every pixel, convert it, re-encode;
the collected bytes go through `Image::new`. -/
def Image.convert {P Q : Type} (T : PixelT P) (U : PixelT Q) (f : P → Q)
    (img : Image) : Option Image :=
  ((List.range img.height).mapM fun y =>
      (List.range img.width).mapM fun x =>
        (img.get_pixel T x y).map fun p => U.intoVec (f p)).map
    fun rows => Image.new U.numChannels img.height img.width
      ((rows.map List.flatten).flatten)

/-- `Image::crop_left`. -/
def Image.crop_left (c : Nat) (amt : Nat) (img : Image) : Option Image :=
  if img.width ≤ amt then some img
  else
    ((List.range img.height).mapM fun i =>
        slice img.data (i * img.rowSize c + c * amt)
          (i * img.rowSize c + img.rowSize c)).map
      fun rows => ⟨img.height, img.width - amt, rows.flatten⟩

/-- `Image::crop_right`. -/
def Image.crop_right (c : Nat) (amt : Nat) (img : Image) : Option Image :=
  if img.width ≤ amt then some img
  else
    ((List.range img.height).mapM fun i =>
        slice img.data (i * img.rowSize c)
          (i * img.rowSize c + img.rowSize c - c * amt)).map
      fun rows => ⟨img.height, img.width - amt, rows.flatten⟩

/-- `Image::crop_top`. -/
def Image.crop_top (c : Nat) (amt : Nat) (img : Image) : Option Image :=
  if img.height ≤ amt then some img
  else
    (slice img.data (amt * img.rowSize c) img.data.length).map
      fun d => ⟨img.height - amt, img.width, d⟩

/-- `Image::crop_bottom`. -/
def Image.crop_bottom (c : Nat) (amt : Nat) (img : Image) : Option Image :=
  if img.height ≤ amt then some img
  else
    (slice img.data 0 ((img.height - amt) * img.rowSize c)).map
      fun d => ⟨img.height - amt, img.width, d⟩

/-- `Image::crop(left, right, top, bottom)`: the four one-sided crops in
order top, bottom, left, right, then `shrink_data`. -/
def Image.crop (c : Nat) (left right top bottom : Nat) (img : Image) :
    Option Image := do
  let i1 ← img.crop_top c top
  let i2 ← i1.crop_bottom c bottom
  let i3 ← i2.crop_left c left
  let i4 ← i3.crop_right c right
  pure (i4.shrink_data c)

/-! ### Helper lemmas about lists -/

lemma length_resize (l : List Nat) (n : Nat) : (resize l n).length = n := by
  simp [resize, List.length_take]
  omega

lemma resize_eq_self (l : List Nat) (n : Nat) (h : l.length = n) :
    resize l n = l := by
  simp [resize, ← h, List.take_length]

lemma slice_eq (l : List Nat) (a b : Nat) (h1 : a ≤ b) (h2 : b ≤ l.length) :
    slice l a b = some ((l.drop a).take (b - a)) := by
  simp [slice, h1, h2]

lemma length_slice_chunk (l : List Nat) (a b : Nat) (h1 : a ≤ b)
    (h2 : b ≤ l.length) : ((l.drop a).take (b - a)).length = b - a := by
  simp [List.length_take, List.length_drop]
  omega

lemma mapM_eq_map {α β : Type} (f : α → Option β) (g : α → β) (l : List α)
    (h : ∀ a ∈ l, f a = some (g a)) : l.mapM f = some (l.map g) := by
  induction l with
  | nil => rfl
  | cons a t ih =>
    simp only [List.mapM_cons, List.map_cons]
    rw [h a (by simp), ih (fun x hx => h x (by simp [hx]))]
    rfl

lemma flatten_chunks_off (l : List Nat) (s : Nat) :
    ∀ (n base : Nat),
      ((List.range n).map fun i => (l.drop (base + i * s)).take s).flatten =
        (l.drop base).take (n * s) := by
  intro n
  induction n with
  | zero => intro base; simp
  | succ m ih =>
    intro base
    rw [List.range_succ_eq_map]
    simp only [List.map_cons, List.map_map, List.flatten_cons]
    have h1 : ((List.range m).map fun i =>
        (l.drop (base + (i + 1) * s)).take s) =
        (List.range m).map fun i => (l.drop ((base + s) + i * s)).take s := by
      apply List.map_congr_left
      intro i _
      congr 1
      ring
    have h2 : (List.map ((fun i => (l.drop (base + i * s)).take s) ∘
        fun i => i + 1) (List.range m)).flatten =
        (l.drop (base + s)).take (m * s) := by
      rw [show (fun i => (l.drop (base + i * s)).take s) ∘ (fun i => i + 1) =
          fun i => (l.drop (base + (i + 1) * s)).take s from rfl, h1, ih]
    rw [h2]
    have h3 : (m + 1) * s = s + m * s := by ring
    rw [h3, List.take_add, List.drop_drop]
    simp

lemma flatten_chunks (l : List Nat) (n s : Nat) (h : l.length = n * s) :
    ((List.range n).map fun i => (l.drop (i * s)).take s).flatten = l := by
  have := flatten_chunks_off l s n 0
  simp only [Nat.zero_add, List.drop_zero] at this
  rw [show (fun i => (l.drop (i * s)).take s) =
      fun i => (l.drop (0 + i * s)).take s by funext i; rw [Nat.zero_add]]
  rw [flatten_chunks_off l s n 0]
  simp [← h, List.take_length]

lemma length_flatten_const {α : Type} (L : List (List α)) (k : Nat)
    (h : ∀ x ∈ L, x.length = k) : L.flatten.length = L.length * k := by
  induction L with
  | nil => simp
  | cons a t ih =>
    simp only [List.flatten_cons, List.length_append, List.length_cons]
    rw [h a (by simp), ih (fun x hx => h x (by simp [hx]))]
    ring

lemma offset_bound (y x h w c : Nat) (hy : y < h) (hx : x < w) :
    y * (w * c) + x * c + c ≤ h * (w * c) := by
  have h1 : (x + 1) * c ≤ w * c := Nat.mul_le_mul_right c (by omega)
  have h2 : (y + 1) * (w * c) ≤ h * (w * c) :=
    Nat.mul_le_mul_right (w * c) (by omega)
  calc y * (w * c) + x * c + c = y * (w * c) + (x + 1) * c := by ring
    _ ≤ y * (w * c) + w * c := by omega
    _ = (y + 1) * (w * c) := by ring
    _ ≤ h * (w * c) := h2

/-! ### Lemmas about the one-sided crops -/

lemma shrink_data_eq_self (c : Nat) (img : Image) (hwf : img.wf c) :
    img.shrink_data c = img := by
  cases img with
  | mk h w d =>
    simp only [Image.shrink_data, Image.mk.injEq, true_and]
    exact resize_eq_self _ _ hwf

lemma crop_top_noop (c t : Nat) (img : Image) (h : img.height ≤ t) :
    img.crop_top c t = some img := by
  simp [Image.crop_top, h]

lemma crop_bottom_noop (c b : Nat) (img : Image) (h : img.height ≤ b) :
    img.crop_bottom c b = some img := by
  simp [Image.crop_bottom, h]

lemma crop_left_noop (c l : Nat) (img : Image) (h : img.width ≤ l) :
    img.crop_left c l = some img := by
  simp [Image.crop_left, h]

lemma crop_right_noop (c r : Nat) (img : Image) (h : img.width ≤ r) :
    img.crop_right c r = some img := by
  simp [Image.crop_right, h]

lemma crop_top_lt (c t : Nat) (img : Image) (hwf : img.wf c)
    (ht : t < img.height) :
    img.crop_top c t =
      some ⟨img.height - t, img.width,
        img.data.drop (t * (img.width * c))⟩ ∧
    Image.wf c ⟨img.height - t, img.width,
        img.data.drop (t * (img.width * c))⟩ := by
  have hwf' : img.data.length = img.height * (img.width * c) := hwf
  have hmul : t * (img.width * c) ≤ img.height * (img.width * c) :=
    Nat.mul_le_mul_right _ (by omega)
  have hsub : (img.height - t) * (img.width * c) =
      img.height * (img.width * c) - t * (img.width * c) := Nat.sub_mul _ _ _
  constructor
  · rw [Image.crop_top, if_neg (by omega)]
    rw [Image.rowSize, slice_eq _ _ _ (by omega) (le_refl _)]
    simp only [Option.map]
    congr 2
    exact List.take_of_length_le (by simp)
  · show (img.data.drop (t * (img.width * c))).length = _
    simp only [List.length_drop]
    omega

lemma crop_bottom_lt (c b : Nat) (img : Image) (hwf : img.wf c)
    (hb : b < img.height) :
    img.crop_bottom c b =
      some ⟨img.height - b, img.width,
        img.data.take ((img.height - b) * (img.width * c))⟩ ∧
    Image.wf c ⟨img.height - b, img.width,
        img.data.take ((img.height - b) * (img.width * c))⟩ := by
  have hwf' : img.data.length = img.height * (img.width * c) := hwf
  have hmul : (img.height - b) * (img.width * c) ≤
      img.height * (img.width * c) := Nat.mul_le_mul_right _ (by omega)
  constructor
  · rw [Image.crop_bottom, if_neg (by omega)]
    rw [Image.rowSize, slice_eq _ _ _ (Nat.zero_le _) (by omega)]
    simp
  · show (img.data.take ((img.height - b) * (img.width * c))).length = _
    simp only [List.length_take]
    omega

lemma crop_left_lt (c l : Nat) (img : Image) (hwf : img.wf c)
    (hl : l < img.width) :
    img.crop_left c l =
      some ⟨img.height, img.width - l,
        ((List.range img.height).map fun i =>
          (img.data.drop (i * (img.width * c) + c * l)).take
            (img.width * c - c * l)).flatten⟩ ∧
    Image.wf c ⟨img.height, img.width - l,
        ((List.range img.height).map fun i =>
          (img.data.drop (i * (img.width * c) + c * l)).take
            (img.width * c - c * l)).flatten⟩ := by
  have hwf' : img.data.length = img.height * (img.width * c) := hwf
  have hcl : c * l ≤ img.width * c := by
    calc c * l = l * c := Nat.mul_comm c l
      _ ≤ img.width * c := Nat.mul_le_mul_right c (by omega)
  have hrow : ∀ i ∈ List.range img.height,
      slice img.data (i * img.rowSize c + c * l)
          (i * img.rowSize c + img.rowSize c) =
        some ((img.data.drop (i * (img.width * c) + c * l)).take
          (img.width * c - c * l)) := by
    intro i hi
    have hi' : i < img.height := List.mem_range.mp hi
    simp only [Image.rowSize]
    have hmul : (i + 1) * (img.width * c) ≤ img.height * (img.width * c) :=
      Nat.mul_le_mul_right _ (by omega)
    have hexp : (i + 1) * (img.width * c) =
        i * (img.width * c) + img.width * c := by ring
    rw [slice_eq _ _ _ (by omega) (by omega),
      show i * (img.width * c) + img.width * c -
          (i * (img.width * c) + c * l) = img.width * c - c * l from by omega]
  have hmap := mapM_eq_map _ _ _ hrow
  constructor
  · rw [Image.crop_left, if_neg (by omega), hmap]
    rfl
  · show (((List.range img.height).map fun i =>
        (img.data.drop (i * (img.width * c) + c * l)).take
          (img.width * c - c * l)).flatten).length = _
    rw [length_flatten_const _ (img.width * c - c * l)]
    · simp only [List.length_map, List.length_range]
      rw [show (img.width - l) * c = img.width * c - c * l from by
        rw [Nat.sub_mul, Nat.mul_comm c l]]
    · intro x hx
      simp only [List.mem_map, List.mem_range] at hx
      obtain ⟨i, hi, rfl⟩ := hx
      have hmul : (i + 1) * (img.width * c) ≤ img.height * (img.width * c) :=
        Nat.mul_le_mul_right _ (by omega)
      have hexp : (i + 1) * (img.width * c) =
          i * (img.width * c) + img.width * c := by ring
      simp only [List.length_take, List.length_drop]
      omega

lemma crop_right_lt (c r : Nat) (img : Image) (hwf : img.wf c)
    (hr : r < img.width) :
    img.crop_right c r =
      some ⟨img.height, img.width - r,
        ((List.range img.height).map fun i =>
          (img.data.drop (i * (img.width * c))).take
            (img.width * c - c * r)).flatten⟩ ∧
    Image.wf c ⟨img.height, img.width - r,
        ((List.range img.height).map fun i =>
          (img.data.drop (i * (img.width * c))).take
            (img.width * c - c * r)).flatten⟩ := by
  have hwf' : img.data.length = img.height * (img.width * c) := hwf
  have hcr : c * r ≤ img.width * c := by
    calc c * r = r * c := Nat.mul_comm c r
      _ ≤ img.width * c := Nat.mul_le_mul_right c (by omega)
  have hrow : ∀ i ∈ List.range img.height,
      slice img.data (i * img.rowSize c)
          (i * img.rowSize c + img.rowSize c - c * r) =
        some ((img.data.drop (i * (img.width * c))).take
          (img.width * c - c * r)) := by
    intro i hi
    have hi' : i < img.height := List.mem_range.mp hi
    simp only [Image.rowSize]
    have hmul : (i + 1) * (img.width * c) ≤ img.height * (img.width * c) :=
      Nat.mul_le_mul_right _ (by omega)
    have hexp : (i + 1) * (img.width * c) =
        i * (img.width * c) + img.width * c := by ring
    rw [slice_eq _ _ _ (by omega) (by omega),
      show i * (img.width * c) + img.width * c - c * r -
          i * (img.width * c) = img.width * c - c * r from by omega]
  have hmap := mapM_eq_map _ _ _ hrow
  constructor
  · rw [Image.crop_right, if_neg (by omega), hmap]
    rfl
  · show (((List.range img.height).map fun i =>
        (img.data.drop (i * (img.width * c))).take
          (img.width * c - c * r)).flatten).length = _
    rw [length_flatten_const _ (img.width * c - c * r)]
    · simp only [List.length_map, List.length_range]
      rw [show (img.width - r) * c = img.width * c - c * r from by
        rw [Nat.sub_mul, Nat.mul_comm c r]]
    · intro x hx
      simp only [List.mem_map, List.mem_range] at hx
      obtain ⟨i, hi, rfl⟩ := hx
      have hmul : (i + 1) * (img.width * c) ≤ img.height * (img.width * c) :=
        Nat.mul_le_mul_right _ (by omega)
      have hexp : (i + 1) * (img.width * c) =
          i * (img.width * c) + img.width * c := by ring
      simp only [List.length_take, List.length_drop]
      omega

/-! ### The four one-sided crops at amount 0 are the identity -/

lemma crop_top_zero (c : Nat) (img : Image) (hwf : img.wf c) :
    img.crop_top c 0 = some img := by
  by_cases h : img.height = 0
  · exact crop_top_noop c 0 img (by omega)
  · rcases crop_top_lt c 0 img hwf (by omega) with ⟨heq, -⟩
    rw [heq]
    cases img
    simp

lemma crop_bottom_zero (c : Nat) (img : Image) (hwf : img.wf c) :
    img.crop_bottom c 0 = some img := by
  have hwf' : img.data.length = img.height * (img.width * c) := hwf
  by_cases h : img.height = 0
  · exact crop_bottom_noop c 0 img (by omega)
  · rcases crop_bottom_lt c 0 img hwf (by omega) with ⟨heq, -⟩
    rw [heq]
    cases img
    simp only [Nat.sub_zero, Option.some.injEq, Image.mk.injEq, true_and]
    simp only at hwf'
    rw [← hwf', List.take_length]

lemma crop_left_zero (c : Nat) (img : Image) (hwf : img.wf c) :
    img.crop_left c 0 = some img := by
  have hwf' : img.data.length = img.height * (img.width * c) := hwf
  by_cases h : img.width = 0
  · exact crop_left_noop c 0 img (by omega)
  · rcases crop_left_lt c 0 img hwf (by omega) with ⟨heq, -⟩
    rw [heq]
    cases img with
    | mk ht wd dt =>
      simp only [Nat.sub_zero, Option.some.injEq, Image.mk.injEq, true_and]
      simp only [Nat.mul_zero, Nat.add_zero, Nat.sub_zero] at *
      exact flatten_chunks dt ht (wd * c) hwf'

lemma crop_right_zero (c : Nat) (img : Image) (hwf : img.wf c) :
    img.crop_right c 0 = some img := by
  have hwf' : img.data.length = img.height * (img.width * c) := hwf
  by_cases h : img.width = 0
  · exact crop_right_noop c 0 img (by omega)
  · rcases crop_right_lt c 0 img hwf (by omega) with ⟨heq, -⟩
    rw [heq]
    cases img with
    | mk ht wd dt =>
      simp only [Nat.sub_zero, Option.some.injEq, Image.mk.injEq, true_and]
      simp only [Nat.mul_zero, Nat.sub_zero] at *
      exact flatten_chunks dt ht (wd * c) hwf'

/-! ### Decoding formats whose `from_slice` reads its own channel bytes -/

lemma get?_eq_some_getD (l : List Nat) (i : Nat) (h : i < l.length) :
    l.get? i = some (l.getD i 0) := by
  simp [List.getD, List.get?_eq_getElem?, List.getElem?_eq_getElem h]

lemma drop_take_succ_eq_cons (l : List Nat) (i n : Nat) (h : i < l.length) :
    (l.drop i).take (n + 1) = l.getD i 0 :: (l.drop (i + 1)).take n := by
  rw [List.drop_eq_getElem_cons h, List.take_succ_cons]
  congr 1
  simp [List.getD, List.get?_eq_getElem?, List.getElem?_eq_getElem h]

lemma take_chunk_one (l : List Nat) (i : Nat) (h : i + 1 ≤ l.length) :
    (l.drop i).take 1 = [l.getD i 0] := by
  rw [show (1 : Nat) = 0 + 1 from rfl,
    drop_take_succ_eq_cons l i 0 (by omega)]
  simp

lemma take_chunk_three (l : List Nat) (i : Nat) (h : i + 3 ≤ l.length) :
    (l.drop i).take 3 =
      [l.getD i 0, l.getD (i + 1) 0, l.getD (i + 2) 0] := by
  rw [show (3 : Nat) = 2 + 1 from rfl,
    drop_take_succ_eq_cons l i 2 (by omega),
    show (2 : Nat) = 1 + 1 from rfl,
    drop_take_succ_eq_cons l (i + 1) 1 (by omega),
    take_chunk_one l (i + 2) (by omega)]

lemma take_chunk_four (l : List Nat) (i : Nat) (h : i + 4 ≤ l.length) :
    (l.drop i).take 4 =
      [l.getD i 0, l.getD (i + 1) 0, l.getD (i + 2) 0, l.getD (i + 3) 0] := by
  rw [show (4 : Nat) = 3 + 1 from rfl,
    drop_take_succ_eq_cons l i 3 (by omega),
    take_chunk_three l (i + 1) (by omega)]

/-- A pixel format whose `from_slice` succeeds on any in-bounds offset
and reads exactly its own `numChannels` bytes there: decoding then
re-encoding reproduces the byte chunk.  `Gray`, `RGB` and `RGBA`
qualify; `GrayA` does not (its `from_slice` reads `vec[idx + 2]`). -/
structure DecodesChunks (P : Type) (T : PixelT P) : Type where
  dec : List Nat → Nat → P
  fromSlice_eq : ∀ l i, i + T.numChannels ≤ l.length →
    T.fromSlice l i = some (dec l i)
  intoVec_dec : ∀ l i, i + T.numChannels ≤ l.length →
    T.intoVec (dec l i) = (l.drop i).take T.numChannels

def grayDecodes : DecodesChunks Gray GrayT where
  dec l i := ⟨l.getD i 0⟩
  fromSlice_eq l i h := by
    have h' : i + 1 ≤ l.length := h
    show (l.get? i).map Gray.mk = _
    rw [get?_eq_some_getD l i (by omega)]
    rfl
  intoVec_dec l i h := by
    show [l.getD i 0] = (l.drop i).take 1
    rw [take_chunk_one l i h]

def rgbDecodes : DecodesChunks RGB RGBT where
  dec l i := ⟨l.getD i 0, l.getD (i + 1) 0, l.getD (i + 2) 0⟩
  fromSlice_eq l i h := by
    show (do
      let r ← l.get? i
      let g ← l.get? (i + 1)
      let b ← l.get? (i + 2)
      pure (RGB.mk r g b) : Option RGB) = _
    have h' : i + 3 ≤ l.length := h
    rw [get?_eq_some_getD l i (by omega),
      get?_eq_some_getD l (i + 1) (by omega),
      get?_eq_some_getD l (i + 2) (by omega)]
    rfl
  intoVec_dec l i h := by
    show [l.getD i 0, l.getD (i + 1) 0, l.getD (i + 2) 0] =
      (l.drop i).take 3
    rw [take_chunk_three l i h]

def rgbaDecodes : DecodesChunks RGBA RGBAT where
  dec l i :=
    ⟨l.getD i 0, l.getD (i + 1) 0, l.getD (i + 2) 0, l.getD (i + 3) 0⟩
  fromSlice_eq l i h := by
    show (do
      let r ← l.get? i
      let g ← l.get? (i + 1)
      let b ← l.get? (i + 2)
      let a ← l.get? (i + 3)
      pure (RGBA.mk r g b a) : Option RGBA) = _
    have h' : i + 4 ≤ l.length := h
    rw [get?_eq_some_getD l i (by omega),
      get?_eq_some_getD l (i + 1) (by omega),
      get?_eq_some_getD l (i + 2) (by omega),
      get?_eq_some_getD l (i + 3) (by omega)]
    rfl
  intoVec_dec l i h := by
    show [l.getD i 0, l.getD (i + 1) 0, l.getD (i + 2) 0, l.getD (i + 3) 0] =
      (l.drop i).take 4
    rw [take_chunk_four l i h]

/-! ### Grid round-trip -/

lemma from_pixels_of_ne {P : Type} (T : PixelT P) (g : List (List P))
    (hg : g ≠ []) (hr : (g.headD []).isEmpty = false) :
    Image.from_pixels T g = ⟨g.length, (g.headD []).length,
      (g.map fun row => (row.map T.intoVec).flatten).flatten⟩ := by
  cases g with
  | nil => exact absurd rfl hg
  | cons r0 rest =>
    simp only [List.headD_cons] at hr ⊢
    simp [Image.from_pixels, hr]

lemma roundtrip_decodes {P : Type} (T : PixelT P) (D : DecodesChunks P T)
    (img : Image) (hwf : img.wf T.numChannels) (hh : 0 < img.height)
    (hw : 0 < img.width) :
    img.to_pixels T = some ((List.range img.height).map fun y =>
        (List.range img.width).map fun x =>
          D.dec img.data
            (y * (img.width * T.numChannels) + x * T.numChannels)) ∧
    Image.from_pixels T ((List.range img.height).map fun y =>
        (List.range img.width).map fun x =>
          D.dec img.data
            (y * (img.width * T.numChannels) + x * T.numChannels)) =
      img := by
  have hwf' : img.data.length =
      img.height * (img.width * T.numChannels) := hwf
  constructor
  · apply mapM_eq_map
    intro y hy
    have hy' : y < img.height := List.mem_range.mp hy
    apply mapM_eq_map
    intro x hx
    have hx' : x < img.width := List.mem_range.mp hx
    show T.fromSlice img.data
      (y * img.rowSize T.numChannels + x * T.numChannels) = _
    rw [Image.rowSize]
    exact D.fromSlice_eq _ _ (by
      have := offset_bound y x img.height img.width T.numChannels hy' hx'
      omega)
  · obtain ⟨h', hh'⟩ : ∃ h', img.height = h' + 1 :=
      ⟨img.height - 1, by omega⟩
    have hgne : ((List.range img.height).map fun y =>
        (List.range img.width).map fun x =>
          D.dec img.data
            (y * (img.width * T.numChannels) + x * T.numChannels)) ≠ [] := by
      simp [hh', List.range_succ_eq_map]
    have hhead : (((List.range img.height).map fun y =>
        (List.range img.width).map fun x =>
          D.dec img.data
            (y * (img.width * T.numChannels) + x * T.numChannels)).headD
          []) = (List.range img.width).map fun x =>
            D.dec img.data
              (0 * (img.width * T.numChannels) + x * T.numChannels) := by
      rw [hh', List.range_succ_eq_map]
      simp
    have hheadne : ((List.range img.width).map fun x =>
        D.dec img.data
          (0 * (img.width * T.numChannels) + x * T.numChannels)).isEmpty =
        false := by
      obtain ⟨w', hw'⟩ : ∃ w', img.width = w' + 1 :=
        ⟨img.width - 1, by omega⟩
      rw [hw', List.range_succ_eq_map]
      simp
    rw [from_pixels_of_ne T _ hgne (by rw [hhead]; exact hheadne)]
    have hrows : (((List.range img.height).map fun y =>
        (List.range img.width).map fun x =>
          D.dec img.data
            (y * (img.width * T.numChannels) + x * T.numChannels)).map
          fun row => (row.map T.intoVec).flatten) =
        (List.range img.height).map fun y =>
          (img.data.drop (y * (img.width * T.numChannels))).take
            (img.width * T.numChannels) := by
      rw [List.map_map]
      apply List.map_congr_left
      intro y hy
      have hy' : y < img.height := List.mem_range.mp hy
      show ((((List.range img.width).map fun x =>
          D.dec img.data
            (y * (img.width * T.numChannels) + x * T.numChannels)).map
          T.intoVec).flatten) = _
      rw [List.map_map]
      have hcells : ∀ x ∈ List.range img.width,
          (T.intoVec ∘ fun x => D.dec img.data
            (y * (img.width * T.numChannels) + x * T.numChannels)) x =
          (img.data.drop
            (y * (img.width * T.numChannels) + x * T.numChannels)).take
            T.numChannels := by
        intro x hx
        have hx' : x < img.width := List.mem_range.mp hx
        show T.intoVec (D.dec img.data _) = _
        exact D.intoVec_dec _ _ (by
          have := offset_bound y x img.height img.width T.numChannels hy' hx'
          omega)
      rw [List.map_congr_left hcells]
      exact flatten_chunks_off img.data T.numChannels img.width
        (y * (img.width * T.numChannels))
    rw [hrows]
    have hflat := flatten_chunks img.data img.height
      (img.width * T.numChannels) hwf'
    rw [hflat]
    cases img with
    | mk ht wd dt =>
      have hh2 : ht = h' + 1 := hh'
      simp only [Image.mk.injEq, and_true, true_and]
      constructor
      · simp
      · rw [hh2, List.range_succ_eq_map]
        simp

/-! ### Remaining shared helpers -/

lemma new_wf (c h w : Nat) (d : List Nat) : Image.wf c (Image.new c h w d) :=
  length_resize d (h * (w * c))

lemma shrink_wf (c : Nat) (img : Image) : Image.wf c (img.shrink_data c) :=
  length_resize img.data (img.height * (img.width * c))

lemma crop_eq_of_steps (c l r t b : Nat) (img i1 i2 i3 i4 : Image)
    (h1 : img.crop_top c t = some i1) (h2 : i1.crop_bottom c b = some i2)
    (h3 : i2.crop_left c l = some i3) (h4 : i3.crop_right c r = some i4) :
    Image.crop c l r t b img = some (i4.shrink_data c) := by
  simp [Image.crop, h1, h2, h3, h4]

lemma crop_eq_some_shrink (c l r t b : Nat) (img res : Image)
    (h : Image.crop c l r t b img = some res) :
    ∃ i4 : Image, res = Image.shrink_data c i4 := by
  simp only [Image.crop, Option.bind_eq_bind, Option.bind_eq_some,
    Option.pure_def, Option.some.injEq] at h
  obtain ⟨i1, -, i2, -, i3, -, i4, -, hres⟩ := h
  exact ⟨i4, hres.symm⟩

/-! ### The claims -/

/-- C1: the round-trip law `decode(encode(v), 0, F) == v` fails for the
`GrayAlpha` format: `GrayA::from_slice` reads the alpha channel from
`vec[idx + 2]`, and on the 2-byte encoding produced by
`GrayA::into_vec` index 2 is out of bounds, so the decode panics
(modelled as `none`) instead of returning the pixel. -/
theorem C1_grayA_decode_encode_fails :
    GrayAT.fromSlice (GrayAT.intoVec ⟨3, 7⟩) 0 = none := by decide

/-- C2 counterexample: on the well-formed 2×1 `Gray` buffer `[5, 6]`
with `top = bottom = 1` (so `top + bottom ≥ height`),
`Crop(0,0,1,1)` returns height 1, not the original height 2: the top
crop removes one row before the bottom crop sees an exhausted
height. -/
theorem C2_crop_clamping_counterexample :
    Image.wf 1 ⟨2, 1, [5, 6]⟩ ∧
    ¬ ((Image.crop 1 0 0 1 1 ⟨2, 1, [5, 6]⟩).map Image.height =
      some 2) := by decide

/-- C2 amended: an axis is left untouched when each of its two crop
amounts alone reaches the buffer's dimension (then both one-sided
crops take their early-return branch); in that case the whole crop
returns the buffer unchanged. -/
theorem C2_crop_clamping_amended (c : Nat) (img : Image)
    (hwf : img.wf c) :
    (∀ t b, img.height ≤ t → img.height ≤ b →
      Image.crop c 0 0 t b img = some img) ∧
    (∀ l r, img.width ≤ l → img.width ≤ r →
      Image.crop c l r 0 0 img = some img) := by
  constructor
  · intro t b ht hb
    rw [crop_eq_of_steps c 0 0 t b img img img img img
      (crop_top_noop c t img ht) (crop_bottom_noop c b img hb)
      (crop_left_zero c img hwf) (crop_right_zero c img hwf),
      shrink_data_eq_self c img hwf]
  · intro l r hl hr
    rw [crop_eq_of_steps c l r 0 0 img img img img img
      (crop_top_zero c img hwf) (crop_bottom_zero c img hwf)
      (crop_left_noop c l img hl) (crop_right_noop c r img hr),
      shrink_data_eq_self c img hwf]

/-- C2 witness: the amended law at the 1×1 `Gray` buffer `[9]` with
both amounts 2 on each axis. -/
theorem C2_crop_clamping_amended_witness :
    Image.crop 1 0 0 2 2 ⟨1, 1, [9]⟩ = some ⟨1, 1, [9]⟩ ∧
    Image.crop 1 2 2 0 0 ⟨1, 1, [9]⟩ = some ⟨1, 1, [9]⟩ :=
  ⟨(C2_crop_clamping_amended 1 ⟨1, 1, [9]⟩ (by decide)).1 2 2
      (by decide) (by decide),
   (C2_crop_clamping_amended 1 ⟨1, 1, [9]⟩ (by decide)).2 2 2
      (by decide) (by decide)⟩

/-- C3: identity conversion fails for `GrayAlpha`: on the well-formed
1×1 `GrayAlpha` buffer `[5, 7]`, `convert::<GrayA>` must decode the
pixel first, and `GrayA::from_slice` reads `vec[idx + 2]`, which is out
of bounds — the conversion panics (modelled as `none`) instead of
returning the buffer's bytes unchanged. -/
theorem C3_grayA_identity_convert_fails :
    Image.wf GrayAT.numChannels ⟨1, 1, [5, 7]⟩ ∧
    Image.convert GrayAT GrayAT GrayA.toGrayA ⟨1, 1, [5, 7]⟩ = none := by
  decide

set_option maxRecDepth 100000 in
/-- C4: the 2×2 RGBA buffer `[(255,0,0,255), (0,255,0,255),
(0,0,255,255), (255,255,255,255)]` converts to the Gray buffer
`[76, 150, 28, 255]`; in the exact `f32` arithmetic of `rgb_to_gray`,
red gives 76, green 150, blue 28, and white rounds to exactly 255.0
before the truncating cast. -/
theorem C4_scenario_a_gray_conversion :
    rgb_to_gray 255 0 0 = 76 ∧ rgb_to_gray 0 255 0 = 150 ∧
    rgb_to_gray 0 0 255 = 28 ∧ rgb_to_gray 255 255 255 = 255 ∧
    Image.convert RGBAT GrayT RGBA.toGray
      ⟨2, 2, [255, 0, 0, 255, 0, 255, 0, 255,
              0, 0, 255, 255, 255, 255, 255, 255]⟩ =
      some ⟨2, 2, [76, 150, 28, 255]⟩ := by decide

/-- C5: for `left+right < width` and `top+bottom < height` the crop of
a well-formed buffer succeeds with width `width-left-right` and height
`height-top-bottom`; and `Crop(0,0,0,0)` returns the buffer itself,
byte-identical. -/
theorem C5_crop_dims_and_identity :
    (∀ (c : Nat) (img : Image) (l r t b : Nat), img.wf c →
      l + r < img.width → t + b < img.height →
      ∃ res, Image.crop c l r t b img = some res ∧
        res.width = img.width - l - r ∧
        res.height = img.height - t - b) ∧
    (∀ (c : Nat) (img : Image), img.wf c →
      Image.crop c 0 0 0 0 img = some img) := by
  constructor
  · intro c img l r t b hwf hlr htb
    obtain ⟨e1, w1⟩ := crop_top_lt c t img hwf (by omega)
    obtain ⟨e2, w2⟩ := crop_bottom_lt c b
      ⟨img.height - t, img.width, img.data.drop (t * (img.width * c))⟩
      w1 (by show b < img.height - t; omega)
    obtain ⟨e3, w3⟩ := crop_left_lt c l _ w2
      (by show l < img.width; omega)
    obtain ⟨e4, w4⟩ := crop_right_lt c r _ w3
      (by show r < img.width - l; omega)
    refine ⟨_, crop_eq_of_steps c l r t b img _ _ _ _ e1 e2 e3 e4, ?_, ?_⟩
    · show img.width - l - r = img.width - l - r
      rfl
    · show img.height - t - b = img.height - t - b
      rfl
  · intro c img hwf
    rw [crop_eq_of_steps c 0 0 0 0 img img img img img
      (crop_top_zero c img hwf) (crop_bottom_zero c img hwf)
      (crop_left_zero c img hwf) (crop_right_zero c img hwf),
      shrink_data_eq_self c img hwf]

/-- C5 witness: `Crop(1,0,1,0)` on a well-formed 2×2 `Gray` buffer
gives a 1×1 result, and `Crop(0,0,0,0)` on a 1×1 buffer is the
identity. -/
theorem C5_crop_dims_and_identity_witness :
    (∃ res, Image.crop 1 1 0 1 0 ⟨2, 2, [1, 2, 3, 4]⟩ = some res ∧
      res.width = 1 ∧ res.height = 1) ∧
    Image.crop 1 0 0 0 0 ⟨1, 1, [9]⟩ = some ⟨1, 1, [9]⟩ :=
  ⟨C5_crop_dims_and_identity.1 1 ⟨2, 2, [1, 2, 3, 4]⟩ 1 0 1 0
      (by decide) (by decide) (by decide),
   C5_crop_dims_and_identity.2 1 ⟨1, 1, [9]⟩ (by decide)⟩

/-- C6 counterexample: `from_pixels` on the ragged 2-row grid
`[[0], [1, 2]]` (Gray) produces a buffer with height 2, width 1 and 3
data bytes, violating `len(pixels) == height*width*channels`. -/
theorem C6_ragged_grid_counterexample :
    ¬ Image.wf GrayT.numChannels
      (Image.from_pixels GrayT [[⟨0⟩], [⟨1⟩, ⟨2⟩]]) := by decide

/-- C6 amended: buffers produced by `new`, `convert` and `crop` always
satisfy `len(pixels) == height*width*channels`, and `from_pixels`
satisfies it whenever all grid rows have the first row's length (the
four formats' `into_vec` always emits `numChannels` bytes). -/
theorem C6_dimension_invariant_amended :
    (∀ (c h w : Nat) (d : List Nat), Image.wf c (Image.new c h w d)) ∧
    (∀ (P Q : Type) (T : PixelT P) (U : PixelT Q) (f : P → Q)
      (img res : Image), Image.convert T U f img = some res →
      Image.wf U.numChannels res) ∧
    (∀ (c l r t b : Nat) (img res : Image),
      Image.crop c l r t b img = some res → Image.wf c res) ∧
    (∀ (P : Type) (T : PixelT P),
      (∀ p, (T.intoVec p).length = T.numChannels) →
      ∀ g : List (List P), (∀ row ∈ g, row.length = (g.headD []).length) →
      Image.wf T.numChannels (Image.from_pixels T g)) ∧
    ((∀ p : Gray, (GrayT.intoVec p).length = GrayT.numChannels) ∧
     (∀ p : GrayA, (GrayAT.intoVec p).length = GrayAT.numChannels) ∧
     (∀ p : RGB, (RGBT.intoVec p).length = RGBT.numChannels) ∧
     (∀ p : RGBA, (RGBAT.intoVec p).length = RGBAT.numChannels)) := by
  refine ⟨fun c h w d => new_wf c h w d, ?_, ?_, ?_,
    fun p => rfl, fun p => rfl, fun p => rfl, fun p => rfl⟩
  · intro P Q T U f img res hconv
    simp only [Image.convert, Option.map_eq_some'] at hconv
    obtain ⟨rows, -, hres⟩ := hconv
    rw [← hres]
    exact new_wf _ _ _ _
  · intro c l r t b img res hcrop
    obtain ⟨i4, rfl⟩ := crop_eq_some_shrink c l r t b img res hcrop
    exact shrink_wf c i4
  · intro P T hvec g hrect
    cases g with
    | nil => show (0 : Nat) = 0 * (0 * T.numChannels); simp
    | cons r0 rest =>
      by_cases hr0 : r0.isEmpty
      · show ((if r0.isEmpty then _ else _ : Image)).data.length = _
        rw [Image.from_pixels, if_pos hr0]
        simp [Image.wf]
      · rw [show Image.from_pixels T (r0 :: rest) =
            ⟨(r0 :: rest).length, r0.length,
              ((r0 :: rest).map fun row =>
                (row.map T.intoVec).flatten).flatten⟩ from by
          rw [Image.from_pixels, if_neg hr0]]
        show (((r0 :: rest).map fun row =>
          (row.map T.intoVec).flatten).flatten).length = _
        rw [length_flatten_const _ (r0.length * T.numChannels)]
        · simp
        · intro x hx
          simp only [List.mem_map] at hx
          obtain ⟨row, hrow, rfl⟩ := hx
          rw [length_flatten_const _ T.numChannels
            (by intro y hy
                simp only [List.mem_map] at hy
                obtain ⟨p, -, rfl⟩ := hy
                exact hvec p)]
          rw [List.length_map, hrect row hrow]
          simp

/-- C6 witness: the amended invariant applied to a concrete crop result
and a concrete rectangular grid. -/
theorem C6_dimension_invariant_amended_witness :
    Image.wf 1 ⟨1, 1, [6]⟩ ∧
    Image.wf GrayT.numChannels (Image.from_pixels GrayT [[⟨1⟩], [⟨2⟩]]) :=
  ⟨C6_dimension_invariant_amended.2.2.1 1 0 0 1 1 ⟨2, 1, [5, 6]⟩
      ⟨1, 1, [6]⟩ (by decide),
   C6_dimension_invariant_amended.2.2.2.1 Gray GrayT (fun p => rfl)
      [[⟨1⟩], [⟨2⟩]] (by decide)⟩

/-- C7: `decode` does not read exactly the `channel_count` bytes at the
offset for `GrayAlpha`: with `bytes = [1, 2]` and `offset = 0` (an
in-bounds call, `0 + 2 ≤ 2`) the decode panics reading index 2
(modelled as `none`), and with a third byte present it returns alpha
from `bytes[2]` instead of `bytes[1]`. -/
theorem C7_grayA_from_slice_out_of_bounds :
    GrayAT.fromSlice [1, 2] 0 = none ∧
    GrayAT.fromSlice [1, 2, 9] 0 = some ⟨1, 9⟩ := by decide

/-- C8: `Image::new` always returns a buffer whose storage is the
supplied bytes truncated to `height*width*channels` and zero-padded up
to that length; with height 1, width 2, RGB and 4 supplied bytes the
stored bytes are those 4 bytes followed by 2 zeros. -/
theorem C8_construct_total_normalization :
    (∀ (c h w : Nat) (d : List Nat),
      (Image.new c h w d).data =
        d.take (h * w * c) ++ List.replicate (h * w * c - d.length) 0 ∧
      (Image.new c h w d).data.length = h * w * c) ∧
    Image.new 3 1 2 [10, 20, 30, 40] = ⟨1, 2, [10, 20, 30, 40, 0, 0]⟩ := by
  refine ⟨fun c h w d => ⟨?_, ?_⟩, by decide⟩
  · show resize d (h * (w * c)) = _
    rw [Nat.mul_assoc]
    rfl
  · show (resize d (h * (w * c))).length = _
    rw [length_resize, Nat.mul_assoc]

/-- C9 counterexample: the well-formed 3×0 `Gray` buffer round-trips
through `to_pixels` / `from_pixels` to the 0×0 buffer, not to itself:
`to_pixels` yields three empty rows and `from_pixels` collapses any
grid with an empty first row to a zero-size buffer. -/
theorem C9_to_from_grid_counterexample :
    Image.wf GrayT.numChannels ⟨3, 0, []⟩ ∧
    (Image.to_pixels GrayT ⟨3, 0, []⟩).map (Image.from_pixels GrayT) =
      some ⟨0, 0, []⟩ ∧
    (⟨0, 0, []⟩ : Image) ≠ ⟨3, 0, []⟩ := by decide

/-- C9 amended: for every well-formed buffer with positive height and
width, in the formats whose `from_slice` is correct (`Gray`, `RGB`,
`RGBA`), `from_pixels (to_pixels buffer)` returns the buffer itself
(`GrayAlpha` is excluded by its `from_slice` defect, and zero-size
buffers collapse to 0×0); `from_pixels` on an empty grid — no rows, or
an empty first row — yields the 0×0 buffer. -/
theorem C9_to_from_grid_amended :
    (∀ img : Image, img.wf GrayT.numChannels → 0 < img.height →
      0 < img.width → ∃ g, img.to_pixels GrayT = some g ∧
        Image.from_pixels GrayT g = img) ∧
    (∀ img : Image, img.wf RGBT.numChannels → 0 < img.height →
      0 < img.width → ∃ g, img.to_pixels RGBT = some g ∧
        Image.from_pixels RGBT g = img) ∧
    (∀ img : Image, img.wf RGBAT.numChannels → 0 < img.height →
      0 < img.width → ∃ g, img.to_pixels RGBAT = some g ∧
        Image.from_pixels RGBAT g = img) ∧
    (∀ (P : Type) (T : PixelT P), Image.from_pixels T [] = ⟨0, 0, []⟩ ∧
      ∀ rest : List (List P), Image.from_pixels T ([] :: rest) =
        ⟨0, 0, []⟩) := by
  refine ⟨?_, ?_, ?_, fun P T => ⟨rfl, fun rest => rfl⟩⟩
  · intro img hwf hh hw
    obtain ⟨h1, h2⟩ := roundtrip_decodes GrayT grayDecodes img hwf hh hw
    exact ⟨_, h1, h2⟩
  · intro img hwf hh hw
    obtain ⟨h1, h2⟩ := roundtrip_decodes RGBT rgbDecodes img hwf hh hw
    exact ⟨_, h1, h2⟩
  · intro img hwf hh hw
    obtain ⟨h1, h2⟩ := roundtrip_decodes RGBAT rgbaDecodes img hwf hh hw
    exact ⟨_, h1, h2⟩

/-- C9 witness: the grid round-trip at the 1×1 `Gray` buffer `[5]`. -/
theorem C9_to_from_grid_amended_witness :
    ∃ g, Image.to_pixels GrayT ⟨1, 1, [5]⟩ = some g ∧
      Image.from_pixels GrayT g = ⟨1, 1, [5]⟩ :=
  C9_to_from_grid_amended.1 ⟨1, 1, [5]⟩ (by decide) (by decide) (by decide)

/-- C10: each one-sided crop returns the buffer unchanged when its own
amount reaches the buffer's current dimension, and trims exactly its
amount when it does not; consequently for `top = bottom = 0`,
`left < width`, and `left + right ≥ width`, the crop removes the left
columns and the right crop degenerates, giving width `width - left`
with the height untouched. -/
theorem C10_crop_order_and_oneside_noop :
    (∀ (c amt : Nat) (img : Image), img.width ≤ amt →
      img.crop_left c amt = some img) ∧
    (∀ (c amt : Nat) (img : Image), img.width ≤ amt →
      img.crop_right c amt = some img) ∧
    (∀ (c amt : Nat) (img : Image), img.height ≤ amt →
      img.crop_top c amt = some img) ∧
    (∀ (c amt : Nat) (img : Image), img.height ≤ amt →
      img.crop_bottom c amt = some img) ∧
    (∀ (c amt : Nat) (img : Image), img.wf c → amt < img.width →
      ∃ res, img.crop_left c amt = some res ∧
        res.width = img.width - amt) ∧
    (∀ (c l r : Nat) (img : Image), img.wf c → l < img.width →
      img.width ≤ l + r →
      ∃ res, Image.crop c l r 0 0 img = some res ∧
        res.width = img.width - l ∧ res.height = img.height) := by
  refine ⟨fun c amt img h => crop_left_noop c amt img h,
    fun c amt img h => crop_right_noop c amt img h,
    fun c amt img h => crop_top_noop c amt img h,
    fun c amt img h => crop_bottom_noop c amt img h, ?_, ?_⟩
  · intro c amt img hwf hlt
    obtain ⟨e3, -⟩ := crop_left_lt c amt img hwf hlt
    exact ⟨_, e3, rfl⟩
  · intro c l r img hwf hl hlr
    obtain ⟨e3, w3⟩ := crop_left_lt c l img hwf hl
    refine ⟨_, crop_eq_of_steps c l r 0 0 img img img _ _
      (crop_top_zero c img hwf) (crop_bottom_zero c img hwf) e3
      (crop_right_noop c r _ (by show img.width - l ≤ r; omega)), ?_, ?_⟩
    · show img.width - l = img.width - l
      rfl
    · show img.height = img.height
      rfl

/-- C10 witness: cropping 1 column left and 5 right from a 2×3 `Gray`
buffer (so `left + right ≥ width`) yields width 2 and height 2. -/
theorem C10_crop_order_and_oneside_noop_witness :
    ∃ res, Image.crop 1 1 5 0 0 ⟨2, 3, [1, 2, 3, 4, 5, 6]⟩ = some res ∧
      res.width = 2 ∧ res.height = 2 :=
  C10_crop_order_and_oneside_noop.2.2.2.2.2 1 1 5
    ⟨2, 3, [1, 2, 3, 4, 5, 6]⟩ (by decide) (by decide) (by decide)

end Motsu
